import Mathlib

/-!
Verification development for the peer-to-peer cluster node of the
WealthWorkshop repository (`clusterServer.ts`).

The node keeps two insertion-ordered maps keyed by peer id:
`peers` (the roster, id -> NodeInfo) and `clients` (the peer client pool,
id -> the address the outbound client handle was opened against).
The RPC service exposes Join / Ping / Broadcast; bootstrap performs a
Join against a seed and merges the returned roster.

JavaScript `Map` objects are modelled as association lists with
`Map.set` / `Map.has` / `Map.get` semantics (`mapSet`, `mapHas`,
`mapGet`): `set` replaces the value in place when the key is present and
appends otherwise, preserving insertion order.

Network outcomes of the awaited `Ping` calls in Broadcast are supplied
by an oracle `ok : String → Bool` (true when the awaited unary call
resolves, false when it rejects and is swallowed by the `catch`).
`broadcastTrace` additionally records the order in which calls are
issued and completed, reflecting that the loop body awaits each call
before the next iteration.
-/

namespace WealthWorkshop

/-- `NodeInfo` from clusterServer.ts: `{ id: string; address: string }`. -/
structure NodeInfo where
  id : String
  address : String
deriving DecidableEq

/-- JS `Map.has(k)`. -/
def mapHas (m : List (String × α)) (k : String) : Bool :=
  m.any (fun kv => kv.1 = k)

/-- JS `Map.set(k, v)`: replace in place when the key exists, else append. -/
def mapSet (m : List (String × α)) (k : String) (v : α) : List (String × α) :=
  if mapHas m k then m.map (fun kv => if kv.1 = k then (k, v) else kv)
  else m ++ [(k, v)]

/-- JS `Map.get(k)` (first entry with the key). -/
def mapGet (m : List (String × α)) (k : String) : Option α :=
  (m.find? (fun kv => kv.1 = k)).map Prod.snd

/-- The mutable state of a `ClusterNode`: identity (`id`, `address`),
the roster `peers : Map<string, NodeInfo>` and the peer client pool
`clients : Map<string, ClusterClient>` (a client handle is represented
by the address it was opened against). -/
structure NodeState where
  selfId : String
  selfAddr : String
  peers : List (String × NodeInfo)
  clients : List (String × String)
deriving DecidableEq

/-- `new ClusterNode(host, port)`: fresh id and address, empty roster and pool. -/
def initNode (id addr : String) : NodeState :=
  ⟨id, addr, [], []⟩

/-- `ClusterNode.connectToPeer`: return unchanged when `peer.id === this.id`,
otherwise open a client at `peer.address` and `clients.set(peer.id, client)`. -/
def connectToPeer (s : NodeState) (peer : NodeInfo) : NodeState :=
  if peer.id = s.selfId then s
  else { s with clients := mapSet s.clients peer.id peer.address }

/-- The two statements shared verbatim by the Join handler and the
`joinPeer` merge loop:
`this.peers.set(p.id, p); if (!this.clients.has(p.id)) this.connectToPeer(p);`. -/
def learnPeer (s : NodeState) (p : NodeInfo) : NodeState :=
  let s1 : NodeState := { s with peers := mapSet s.peers p.id p }
  if mapHas s1.clients p.id then s1 else connectToPeer s1 p

/-- The Join handler (`makeServiceImpl().Join`): insert the caller into the
roster, connect if no client exists, then answer with
`Array.from(this.peers.values())` followed by the node's own identity. -/
def joinImpl (s : NodeState) (me : NodeInfo) : NodeState × List NodeInfo :=
  let s2 := learnPeer s me
  (s2, s2.peers.map Prod.snd ++ [⟨s2.selfId, s2.selfAddr⟩])

/-- Error kinds an RPC callback could surface (`grpc.status`-style). -/
inductive RpcError where
  | invalidArgument
  | unavailable
deriving DecidableEq

/-- The Join handler seen through the RPC callback: the handler calls
`cb(null, { peers })` on every path (there is no validation branch and
the error argument of the callback is never used), so the result is
always `ok`. -/
def joinRpc (s : NodeState) (me : NodeInfo) :
    Except RpcError (NodeState × List NodeInfo) :=
  Except.ok (joinImpl s me)

/-- The Ping handler: `cb(null, { ack: "ack from <id> to <from>" })`. -/
def pingImpl (s : NodeState) (fromId : String) : String :=
  "ack from " ++ s.selfId ++ " to " ++ fromId

/-- The Broadcast handler's loop: iterate the client pool in order,
skip the entry keyed by `from`, await a Ping on each of the others and
increment `delivered` when the call resolves (rejections are caught and
ignored). -/
def broadcastImpl (s : NodeState) (fromId : String) (ok : String → Bool) : Nat :=
  s.clients.foldl
    (fun delivered kc =>
      if kc.1 = fromId then delivered
      else if ok kc.1 then delivered + 1 else delivered)
    0

/-- The Broadcast handler seen through the RPC callback: the handler
ends in `cb(null, { delivered })` unconditionally — per-peer failures
are absorbed by the `try/catch` and never reach the error argument. -/
def broadcastRpc (s : NodeState) (fromId : String) (ok : String → Bool) :
    Except RpcError Nat :=
  Except.ok (broadcastImpl s fromId ok)

/-- Observable network events of a Broadcast: issuing a Ping to a peer,
and that peer's call completing (with success flag). -/
inductive Event where
  | call (peerId : String)
  | reply (peerId : String) (ok : Bool)
deriving DecidableEq

/-- Trace of the Broadcast loop. The loop body `await`s each Ping before
the next iteration starts, so each `call` is immediately followed by its
own `reply` before the next `call` is issued. -/
def broadcastTrace (s : NodeState) (fromId : String) (ok : String → Bool) :
    List Event :=
  s.clients.foldl
    (fun tr kc =>
      if kc.1 = fromId then tr
      else tr ++ [Event.call kc.1, Event.reply kc.1 (ok kc.1)])
    []

/-- The roster-mutating operations a running node performs: handling an
inbound Join, and merging the roster returned by a bootstrap `joinPeer`
call (Ping and Broadcast do not mutate the state). -/
inductive Op where
  | inboundJoin (me : NodeInfo)
  | bootstrapMerge (resp : List NodeInfo)

/-- `ClusterNode.joinPeer`'s merge loop over the peers of the response:
`for (const p of peers) { this.peers.set(p.id, p); if (!this.clients.has(p.id)) this.connectToPeer(p); }`. -/
def joinPeerMerge (s : NodeState) (resp : List NodeInfo) : NodeState :=
  resp.foldl learnPeer s

/-- Apply one operation to the node state. -/
def applyOp (s : NodeState) : Op → NodeState
  | Op.inboundJoin me => (joinImpl s me).1
  | Op.bootstrapMerge resp => joinPeerMerge s resp

/-- A node's state after a sequence of operations. -/
def run (s : NodeState) (ops : List Op) : NodeState :=
  ops.foldl applyOp s

/-- A Ping oracle under which every peer is live and responsive. -/
def okAll : String → Bool := fun _ => true

/-- The shape of a fan-out trace in which every call is issued before
any completion is observed, i.e. a parallel fan-out. -/
def isCall : Event → Bool
  | Event.call _ => true
  | Event.reply _ _ => false

/-- True when no call is issued after a completion has been observed —
the trace shape of a parallel fan-out. -/
def callsPrecedeReplies (tr : List Event) : Bool :=
  (tr.dropWhile isCall).all (fun e => !isCall e)

/-! ### Map lemmas -/

theorem mapHas_iff_mem (m : List (String × α)) (k : String) :
    mapHas m k = true ↔ ∃ kv ∈ m, kv.1 = k := by
  simp [mapHas]

theorem mapHas_of_mem {m : List (String × α)} {kv : String × α}
    (h : kv ∈ m) : mapHas m kv.1 = true :=
  (mapHas_iff_mem m kv.1).2 ⟨kv, h, rfl⟩

theorem mapHas_iff_mem_keys (m : List (String × α)) (k : String) :
    mapHas m k = true ↔ k ∈ m.map Prod.fst := by
  simp [mapHas_iff_mem, List.mem_map]

theorem keys_update (m : List (String × α)) (k : String) (v : α) :
    (m.map (fun kv => if kv.1 = k then (k, v) else kv)).map Prod.fst
      = m.map Prod.fst := by
  induction m with
  | nil => rfl
  | cons hd tl ih =>
    simp only [List.map_cons, ih]
    by_cases h : hd.1 = k
    · simp [h]
    · simp [h]

theorem keys_mapSet (m : List (String × α)) (k : String) (v : α) :
    (mapSet m k v).map Prod.fst =
      if mapHas m k then m.map Prod.fst else m.map Prod.fst ++ [k] := by
  unfold mapSet
  split
  · exact keys_update m k v
  · simp

theorem mapHas_mapSet_self (m : List (String × α)) (k : String) (v : α) :
    mapHas (mapSet m k v) k = true := by
  rw [mapHas_iff_mem_keys, keys_mapSet]
  split
  case isTrue h => exact (mapHas_iff_mem_keys m k).1 h
  case isFalse h => simp

theorem mapHas_mapSet_of {m : List (String × α)} {k' : String} (k : String) (v : α)
    (h : mapHas m k' = true) : mapHas (mapSet m k v) k' = true := by
  rw [mapHas_iff_mem_keys, keys_mapSet]
  rw [mapHas_iff_mem_keys] at h
  split
  · exact h
  · simp [h]

theorem mapHas_mapSet_ne {k k' : String} (m : List (String × α)) (v : α)
    (h : k' ≠ k) : mapHas (mapSet m k v) k' = mapHas m k' := by
  by_cases hm : mapHas m k' = true
  · rw [hm, mapHas_mapSet_of k v hm]
  · rw [Bool.not_eq_true] at hm
    rw [hm]
    rw [Bool.eq_false_iff]
    intro hcon
    rw [mapHas_iff_mem_keys, keys_mapSet] at hcon
    rw [Bool.eq_false_iff] at hm
    split at hcon
    · exact hm ((mapHas_iff_mem_keys m k').2 hcon)
    · rcases List.mem_append.1 hcon with h1 | h1
      · exact hm ((mapHas_iff_mem_keys m k').2 h1)
      · exact h (List.mem_singleton.1 h1)

theorem keysNodup_mapSet {m : List (String × α)} (k : String) (v : α)
    (h : (m.map Prod.fst).Nodup) : ((mapSet m k v).map Prod.fst).Nodup := by
  rw [keys_mapSet]
  split
  case isTrue _ => exact h
  case isFalse hk =>
    rw [List.nodup_append]
    refine ⟨h, List.nodup_singleton k, ?_⟩
    intro x hx hx'
    rw [List.mem_singleton] at hx'
    subst hx'
    exact hk ((mapHas_iff_mem_keys m x).2 hx)

theorem mapGet_update_self (m : List (String × α)) (k : String) (v : α)
    (h : mapHas m k = true) :
    mapGet (m.map (fun kv => if kv.1 = k then (k, v) else kv)) k = some v := by
  induction m with
  | nil => simp [mapHas] at h
  | cons hd tl ih =>
    by_cases hk : hd.1 = k
    · simp [mapGet, hk]
    · have h' : mapHas tl k = true := by
        simp [mapHas] at h ⊢
        rcases h with h | h
        · exact absurd h hk
        · exact h
      simpa [mapGet, hk] using ih h'

theorem mapGet_append_self (m : List (String × α)) (k : String) (v : α)
    (h : mapHas m k = false) :
    mapGet (m ++ [(k, v)]) k = some v := by
  induction m with
  | nil => simp [mapGet]
  | cons hd tl ih =>
    rw [Bool.eq_false_iff] at h
    have hk : ¬(hd.1 = k) := fun hc => h (by simp [mapHas, hc])
    have h' : mapHas tl k = false := by
      rw [Bool.eq_false_iff]
      intro hc
      apply h
      simp [mapHas] at hc ⊢
      exact Or.inr hc
    simpa [mapGet, hk] using ih h'

theorem mapGet_mapSet (m : List (String × α)) (k : String) (v : α) :
    mapGet (mapSet m k v) k = some v := by
  unfold mapSet
  by_cases h : mapHas m k = true
  · simp only [h, if_true]
    exact mapGet_update_self m k v h
  · rw [Bool.not_eq_true] at h
    simp only [h]
    simpa using mapGet_append_self m k v h

theorem countP_key_eq_one (m : List (String × α)) (k : String)
    (hnd : (m.map Prod.fst).Nodup) (h : mapHas m k = true) :
    m.countP (fun kv => kv.1 = k) = 1 := by
  induction m with
  | nil => simp [mapHas] at h
  | cons hd tl ih =>
    simp only [List.map_cons, List.nodup_cons] at hnd
    by_cases hk : hd.1 = k
    · rw [List.countP_cons_of_pos _ _ (by simp [hk])]
      have hz : tl.countP (fun kv => decide (kv.1 = k)) = 0 := by
        rw [List.countP_eq_zero]
        intro kv hm
        simp only [decide_eq_true_eq]
        intro he
        exact hnd.1 (hk ▸ he ▸ List.mem_map_of_mem Prod.fst hm)
      simp [hz]
    · rw [List.countP_cons_of_neg _ _ (by simp [hk])]
      have h' : mapHas tl k = true := by
        simp [mapHas] at h ⊢
        rcases h with h | h
        · exact absurd h hk
        · exact h
      exact ih hnd.2 h'

/-! ### Shape lemmas for the node operations -/

theorem peers_learnPeer (s : NodeState) (p : NodeInfo) :
    (learnPeer s p).peers = mapSet s.peers p.id p := by
  simp only [learnPeer, connectToPeer]
  split
  · rfl
  · split
    · rfl
    · rfl

theorem selfId_learnPeer (s : NodeState) (p : NodeInfo) :
    (learnPeer s p).selfId = s.selfId := by
  simp only [learnPeer, connectToPeer]
  split
  · rfl
  · split
    · rfl
    · rfl

theorem selfAddr_learnPeer (s : NodeState) (p : NodeInfo) :
    (learnPeer s p).selfAddr = s.selfAddr := by
  simp only [learnPeer, connectToPeer]
  split
  · rfl
  · split
    · rfl
    · rfl

theorem clients_learnPeer (s : NodeState) (p : NodeInfo) :
    (learnPeer s p).clients =
      if mapHas s.clients p.id then s.clients
      else if p.id = s.selfId then s.clients
      else mapSet s.clients p.id p.address := by
  simp only [learnPeer, connectToPeer]
  split
  · rfl
  · split
    · rfl
    · rfl

theorem selfId_joinPeerMerge (s : NodeState) (resp : List NodeInfo) :
    (joinPeerMerge s resp).selfId = s.selfId := by
  induction resp generalizing s with
  | nil => rfl
  | cons p resp ih =>
    show (joinPeerMerge (learnPeer s p) resp).selfId = s.selfId
    rw [ih, selfId_learnPeer]

theorem selfId_applyOp (s : NodeState) (op : Op) :
    (applyOp s op).selfId = s.selfId := by
  cases op with
  | inboundJoin me => exact selfId_learnPeer s me
  | bootstrapMerge resp => exact selfId_joinPeerMerge s resp

theorem selfId_run (s : NodeState) (ops : List Op) :
    (run s ops).selfId = s.selfId := by
  induction ops generalizing s with
  | nil => rfl
  | cons op ops ih =>
    show (run (applyOp s op) ops).selfId = s.selfId
    rw [ih, selfId_applyOp]

theorem joinPeerMerge_inv (P : NodeState → Prop)
    (hstep : ∀ s p, P s → P (learnPeer s p)) :
    ∀ (resp : List NodeInfo) (s : NodeState), P s → P (joinPeerMerge s resp)
  | [], _, h => h
  | p :: resp, s, h => joinPeerMerge_inv P hstep resp (learnPeer s p) (hstep s p h)

theorem run_inv (P : NodeState → Prop)
    (hstep : ∀ s p, P s → P (learnPeer s p)) :
    ∀ (ops : List Op) (s : NodeState), P s → P (run s ops)
  | [], _, h => h
  | Op.inboundJoin me :: ops, s, h =>
      run_inv P hstep ops (learnPeer s me) (hstep s me h)
  | Op.bootstrapMerge resp :: ops, s, h =>
      run_inv P hstep ops (joinPeerMerge s resp)
        (joinPeerMerge_inv P hstep resp s h)

/-! ### Broadcast loop lemmas -/

theorem broadcastImpl_foldl (f : String) (ok : String → Bool) :
    ∀ (l : List (String × String)) (acc : Nat),
      l.foldl
        (fun delivered kc =>
          if kc.1 = f then delivered
          else if ok kc.1 then delivered + 1 else delivered) acc
      = acc + (l.filter (fun kc => !decide (kc.1 = f))).countP (fun kc => ok kc.1) := by
  intro l
  induction l with
  | nil => intro acc; simp
  | cons hd tl ih =>
    intro acc
    by_cases hf : hd.1 = f
    · simp only [List.foldl_cons, hf, if_true, List.filter_cons]
      simp [hf, ih]
    · by_cases hok : ok hd.1 = true
      · simp only [List.foldl_cons, hf, if_false, hok, if_true, List.filter_cons]
        rw [if_pos (by simp [hf]), ih]
        rw [List.countP_cons_of_pos _ _ (by simp [hok])]
        omega
      · rw [Bool.not_eq_true] at hok
        simp only [List.foldl_cons, hf, if_false, hok, Bool.false_eq_true, List.filter_cons]
        rw [if_pos (by simp [hf]), ih]
        rw [List.countP_cons_of_neg _ _ (by simp [hok])]

theorem broadcastImpl_eq_countP (s : NodeState) (f : String) (ok : String → Bool) :
    broadcastImpl s f ok
      = (s.clients.filter (fun kc => !decide (kc.1 = f))).countP (fun kc => ok kc.1) := by
  unfold broadcastImpl
  rw [broadcastImpl_foldl]
  omega

theorem broadcastTrace_foldl (f : String) (ok : String → Bool) :
    ∀ (l : List (String × String)) (acc : List Event),
      l.foldl
        (fun tr kc =>
          if kc.1 = f then tr
          else tr ++ [Event.call kc.1, Event.reply kc.1 (ok kc.1)]) acc
      = acc ++ (l.filter (fun kc => !decide (kc.1 = f))).flatMap
          (fun kc => [Event.call kc.1, Event.reply kc.1 (ok kc.1)]) := by
  intro l
  induction l with
  | nil => intro acc; simp
  | cons hd tl ih =>
    intro acc
    by_cases hf : hd.1 = f
    · simp only [List.foldl_cons, hf, if_true, List.filter_cons]
      simp [hf, ih]
    · simp only [List.foldl_cons, hf, if_false, List.filter_cons]
      rw [if_pos (by simp [hf]), ih, List.flatMap_cons]
      simp

theorem broadcastTrace_eq_bind (s : NodeState) (f : String) (ok : String → Bool) :
    broadcastTrace s f ok
      = (s.clients.filter (fun kc => !decide (kc.1 = f))).flatMap
          (fun kc => [Event.call kc.1, Event.reply kc.1 (ok kc.1)]) := by
  unfold broadcastTrace
  rw [broadcastTrace_foldl]
  simp

theorem call_mem_broadcastTrace {s : NodeState} {f x : String} {ok : String → Bool}
    (h : Event.call x ∈ broadcastTrace s f ok) :
    mapHas s.clients x = true ∧ x ≠ f := by
  rw [broadcastTrace_eq_bind] at h
  rw [List.mem_flatMap] at h
  rcases h with ⟨kc, hm, hx⟩
  rw [List.mem_filter] at hm
  have hk : x = kc.1 := by simpa using hx
  constructor
  · exact hk ▸ mapHas_of_mem hm.1
  · intro he
    have h2 := hm.2
    rw [← hk, he] at h2
    simp at h2

/-! ### Invariants of reachable states -/

theorem noSelfClients_learnPeer {s : NodeState} (p : NodeInfo)
    (h : mapHas s.clients s.selfId = false) :
    mapHas (learnPeer s p).clients (learnPeer s p).selfId = false := by
  rw [clients_learnPeer, selfId_learnPeer]
  split
  · exact h
  · split
    · exact h
    case isFalse hne =>
      rw [mapHas_mapSet_ne s.clients p.address (fun he => hne he.symm)]
      exact h

theorem noSelfClients_run (id addr : String) (ops : List Op) :
    mapHas (run (initNode id addr) ops).clients id = false := by
  have h := run_inv (fun s => mapHas s.clients s.selfId = false)
      (fun _ p hp => noSelfClients_learnPeer p hp) ops (initNode id addr) rfl
  have hs : (run (initNode id addr) ops).selfId = id := selfId_run _ _
  have h' : mapHas (run (initNode id addr) ops).clients
      (run (initNode id addr) ops).selfId = false := h
  rw [hs] at h'
  exact h'

theorem lockstep_learnPeer {s : NodeState} (p : NodeInfo)
    (h : ∀ k, mapHas s.peers k = true → k ≠ s.selfId → mapHas s.clients k = true) :
    ∀ k, mapHas (learnPeer s p).peers k = true → k ≠ (learnPeer s p).selfId →
      mapHas (learnPeer s p).clients k = true := by
  intro k hk hne
  rw [peers_learnPeer] at hk
  rw [selfId_learnPeer] at hne
  rw [clients_learnPeer]
  by_cases hkp : k = p.id
  · subst hkp
    by_cases hc : mapHas s.clients p.id = true
    · rw [if_pos hc]
      exact hc
    · rw [if_neg hc, if_neg hne]
      exact mapHas_mapSet_self _ _ _
  · rw [mapHas_mapSet_ne _ _ hkp] at hk
    have hc := h k hk hne
    by_cases hcc : mapHas s.clients p.id = true
    · rw [if_pos hcc]
      exact hc
    · rw [if_neg hcc]
      by_cases hself : p.id = s.selfId
      · rw [if_pos hself]
        exact hc
      · rw [if_neg hself]
        exact mapHas_mapSet_of _ _ hc

theorem lockstep_run (id addr : String) (ops : List Op) :
    ∀ k, mapHas (run (initNode id addr) ops).peers k = true → k ≠ id →
      mapHas (run (initNode id addr) ops).clients k = true := by
  have h := run_inv
      (fun s => ∀ k, mapHas s.peers k = true → k ≠ s.selfId → mapHas s.clients k = true)
      (fun _ p hp => lockstep_learnPeer p hp) ops (initNode id addr)
      (fun k hk _ => by simp [mapHas, initNode] at hk)
  have hs : (run (initNode id addr) ops).selfId = id := selfId_run _ _
  intro k hk hne
  exact h k hk (fun he => hne (hs ▸ he))

theorem peersKeysNodup_run (id addr : String) (ops : List Op) :
    ((run (initNode id addr) ops).peers.map Prod.fst).Nodup :=
  run_inv (fun s => (s.peers.map Prod.fst).Nodup)
    (fun s p hp => by
      show ((learnPeer s p).peers.map Prod.fst).Nodup
      rw [peers_learnPeer]
      exact keysNodup_mapSet p.id p hp)
    ops (initNode id addr) List.nodup_nil

/-- An operation that never presents the node's own id: an inbound Join
whose caller id differs from the node's, or a merge of a response none
of whose entries carries the node's id. -/
def avoidsSelf (selfId : String) : Op → Bool
  | Op.inboundJoin me => ! decide (me.id = selfId)
  | Op.bootstrapMerge resp => resp.all (fun p => ! decide (p.id = selfId))

theorem noSelfPeers_learnPeer {s : NodeState} {p : NodeInfo}
    (hne : p.id ≠ s.selfId) (h : mapHas s.peers s.selfId = false) :
    mapHas (learnPeer s p).peers (learnPeer s p).selfId = false := by
  rw [peers_learnPeer, selfId_learnPeer,
    mapHas_mapSet_ne _ _ (fun he => hne he.symm)]
  exact h

theorem noSelfPeers_joinPeerMerge (resp : List NodeInfo) (s : NodeState)
    (hav : ∀ p ∈ resp, p.id ≠ s.selfId)
    (h : mapHas s.peers s.selfId = false) :
    mapHas (joinPeerMerge s resp).peers (joinPeerMerge s resp).selfId = false := by
  induction resp generalizing s with
  | nil => exact h
  | cons p resp ih =>
    show mapHas (joinPeerMerge (learnPeer s p) resp).peers
      (joinPeerMerge (learnPeer s p) resp).selfId = false
    apply ih
    · intro q hq
      rw [selfId_learnPeer]
      exact hav q (List.mem_cons_of_mem p hq)
    · exact noSelfPeers_learnPeer (hav p (List.mem_cons_self p resp)) h

theorem noSelfPeers_run (ops : List Op) (s : NodeState)
    (hav : ∀ op ∈ ops, avoidsSelf s.selfId op = true)
    (h : mapHas s.peers s.selfId = false) :
    mapHas (run s ops).peers (run s ops).selfId = false := by
  induction ops generalizing s with
  | nil => exact h
  | cons op ops ih =>
    show mapHas (run (applyOp s op) ops).peers (run (applyOp s op) ops).selfId = false
    apply ih
    · intro o ho
      rw [selfId_applyOp]
      exact hav o (List.mem_cons_of_mem op ho)
    · cases op with
      | inboundJoin me =>
        have hme : me.id ≠ s.selfId := by
          have hx := hav (Op.inboundJoin me) (List.mem_cons_self _ _)
          simpa [avoidsSelf] using hx
        exact noSelfPeers_learnPeer hme h
      | bootstrapMerge resp =>
        have hresp : ∀ p ∈ resp, p.id ≠ s.selfId := by
          have hx := hav (Op.bootstrapMerge resp) (List.mem_cons_self _ _)
          simpa [avoidsSelf, List.all_eq_true] using hx
        exact noSelfPeers_joinPeerMerge resp s hresp h

/-! ### Concrete nodes and oracles used to instantiate the theorems -/

/-- Identity of the scenario node A (`127.0.0.1:50051`). -/
def infoA : NodeInfo := ⟨"a", "127.0.0.1:50051"⟩

/-- Identity of the scenario node B (`127.0.0.1:50052`). -/
def infoB : NodeInfo := ⟨"b", "127.0.0.1:50052"⟩

/-- Identity carrying B's id with a later address. -/
def infoB2 : NodeInfo := ⟨"b", "127.0.0.1:60052"⟩

/-- Freshly constructed node A. -/
def nodeA : NodeState := initNode "a" "127.0.0.1:50051"

/-- Freshly constructed node B. -/
def nodeB : NodeState := initNode "b" "127.0.0.1:50052"

/-- A node whose client pool holds an entry keyed by the broadcast
originator "f" and one other peer "p". -/
def pool5 : NodeState := ⟨"a", "ha", [], [("f", "hf"), ("p", "hp")]⟩

/-- A node whose client pool holds two peers, neither keyed "f". -/
def pool6 : NodeState := ⟨"a", "ha", [], [("p", "hp"), ("q", "hq")]⟩

/-- A node whose only pool entry is keyed by the broadcast originator. -/
def pool6c : NodeState := ⟨"a", "ha", [], [("f", "hf")]⟩

/-- A Ping oracle under which only peer "p" is reachable. -/
def okOnlyP : String → Bool := fun x => decide (x = "p")

/-! ### Claims -/

/-- C1 (counterexample): the claim "a node's own id is never stored in
its own roster" is false. Node A bootstraps to a fresh node B; B's Join
handler inserts A into B's roster before building the reply, so the
reply contains A's own entry, and A's `joinPeer` merge stores it —
afterwards A's roster has the key `"a"`, A's own id. -/
theorem c1_counterexample :
    mapHas (run nodeA [Op.bootstrapMerge (joinImpl nodeB infoA).2]).peers "a" = true := by
  decide

/-- C1 (amended): the node's own id stays out of its roster only under
operation sequences that never present it — inbound Joins whose caller
id differs from the node's id and bootstrap merges of responses that
contain no entry with the node's id. -/
theorem c1_no_self_in_roster_of_avoidsSelf (id addr : String) (ops : List Op)
    (hav : ∀ op ∈ ops, avoidsSelf id op = true) :
    mapHas (run (initNode id addr) ops).peers id = false := by
  have h := noSelfPeers_run ops (initNode id addr) hav rfl
  have hs : (run (initNode id addr) ops).selfId = id := selfId_run _ _
  rw [hs] at h
  exact h

/-- Witness for C1 (amended) at a concrete operation sequence. -/
theorem c1_witness :
    (∀ op ∈ [Op.inboundJoin infoB], avoidsSelf "a" op = true) ∧
    mapHas (run (initNode "a" "127.0.0.1:50051") [Op.inboundJoin infoB]).peers "a" = false :=
  ⟨by decide,
   c1_no_self_in_roster_of_avoidsSelf "a" "127.0.0.1:50051" [Op.inboundJoin infoB] (by decide)⟩

/-- C2 (counterexample): the claim "every id in the roster has a client
pool entry" is false. After A merges B's Join response (which contains
A itself), A's roster holds the key `"a"` but `connectToPeer` refuses to
open a client for the node's own id, so the pool has no entry for it. -/
theorem c2_counterexample :
    mapHas (run nodeA [Op.bootstrapMerge (joinImpl nodeB infoA).2]).peers "a" = true ∧
    mapHas (run nodeA [Op.bootstrapMerge (joinImpl nodeB infoA).2]).clients "a" = false := by
  decide

/-- C2 (amended): in every reachable state, every roster id other than
the node's own id has a corresponding client-pool entry. -/
theorem c2_lockstep_except_self (id addr : String) (ops : List Op) (k : String)
    (hk : mapHas (run (initNode id addr) ops).peers k = true) (hne : k ≠ id) :
    mapHas (run (initNode id addr) ops).clients k = true :=
  lockstep_run id addr ops k hk hne

/-- Witness for C2 (amended): after one inbound Join from B, id "b" is
in A's roster, differs from A's id, and has a client-pool entry. -/
theorem c2_witness :
    mapHas (run (initNode "a" "ha") [Op.inboundJoin infoB]).peers "b" = true ∧
    ("b" : String) ≠ "a" ∧
    mapHas (run (initNode "a" "ha") [Op.inboundJoin infoB]).clients "b" = true :=
  ⟨by decide, by decide,
   c2_lockstep_except_self "a" "ha" [Op.inboundJoin infoB] "b" (by decide) (by decide)⟩

/-- C3 (counterexample): the claim that A with an empty roster answers
Join(B) with exactly one entry (A itself) is false: the handler inserts
the caller before building the reply, so the reply is `[B, A]`. -/
theorem c3_counterexample :
    (joinImpl nodeA infoB).2 = [infoB, infoA] ∧ (joinImpl nodeA infoB).2 ≠ [infoA] := by
  constructor
  · decide
  · decide

/-- C3 (amended): a node with an empty roster answers Join(caller) with
exactly two entries — the caller's just-inserted entry followed by the
node's own identity. -/
theorem c3_join_reply_caller_then_self (s : NodeState) (me : NodeInfo)
    (h : s.peers = []) :
    (joinImpl s me).2 = [me, ⟨s.selfId, s.selfAddr⟩] := by
  have hp : (learnPeer s me).peers = [(me.id, me)] := by
    rw [peers_learnPeer, h]
    simp [mapSet, mapHas]
  show (learnPeer s me).peers.map Prod.snd
      ++ [⟨(learnPeer s me).selfId, (learnPeer s me).selfAddr⟩] = _
  rw [hp, selfId_learnPeer, selfAddr_learnPeer]
  rfl

/-- Witness for C3 (amended) at node A handling Join(B). -/
theorem c3_witness :
    nodeA.peers = [] ∧
    (joinImpl nodeA infoB).2 = [infoB, ⟨nodeA.selfId, nodeA.selfAddr⟩] :=
  ⟨rfl, c3_join_reply_caller_then_self nodeA infoB rfl⟩

/-- C4 (counterexample): a malformed Join request (id and address both
missing, i.e. empty after wire defaults) does not fail with
`InvalidArgument`: the handler has no validation branch, accepts it and
inserts the empty id into the roster. -/
theorem c4_counterexample :
    joinRpc nodeA ⟨"", ""⟩ ≠ Except.error RpcError.invalidArgument ∧
    mapHas (joinImpl nodeA ⟨"", ""⟩).1.peers "" = true := by
  constructor
  · intro h
    exact Except.noConfusion h
  · decide

/-- C4 (amended): the Join handler performs no input validation and
never fails: every request, malformed or not, is answered through the
success channel of the callback and its caller is inserted into the
roster. -/
theorem c4_join_never_rejects (s : NodeState) (me : NodeInfo) :
    joinRpc s me = Except.ok (joinImpl s me) ∧
    mapHas (joinImpl s me).1.peers me.id = true := by
  refine ⟨rfl, ?_⟩
  show mapHas (learnPeer s me).peers me.id = true
  rw [peers_learnPeer]
  exact mapHas_mapSet_self _ _ _

/-- C5 (confirmed): when the client pool contains an entry keyed by the
broadcast's `from` id, that entry is skipped: no Ping call is issued to
it, and the delivered count only counts successes among the entries
whose key differs from `from`. -/
theorem c5_broadcast_skips_from (s : NodeState) (fromId : String) (ok : String → Bool)
    (h : mapHas s.clients fromId = true) :
    Event.call fromId ∉ broadcastTrace s fromId ok ∧
    broadcastImpl s fromId ok
      = (s.clients.filter (fun kc => !decide (kc.1 = fromId))).countP
          (fun kc => ok kc.1) := by
  refine ⟨?_, broadcastImpl_eq_countP s fromId ok⟩
  intro hmem
  exact (call_mem_broadcastTrace hmem).2 rfl

/-- Witness for C5 at a pool containing the originator "f". -/
theorem c5_witness :
    mapHas pool5.clients "f" = true ∧
    (Event.call "f" ∉ broadcastTrace pool5 "f" okAll ∧
      broadcastImpl pool5 "f" okAll
        = (pool5.clients.filter (fun kc => !decide (kc.1 = "f"))).countP
            (fun kc => okAll kc.1)) :=
  ⟨by decide, c5_broadcast_skips_from pool5 "f" okAll (by decide)⟩

/-- C6 (counterexample): the claim "delivered equals the pool size when
all pool peers are live and successful" is false when `from` is itself a
pool key: a pool of size 1 whose only entry is keyed "f", with every
Ping succeeding, yields delivered 0, not 1. -/
theorem c6_counterexample :
    pool6c.clients.length = 1 ∧
    (∀ kc ∈ pool6c.clients, okAll kc.1 = true) ∧
    broadcastImpl pool6c "f" okAll = 0 := by
  decide

/-- C6 (amended): delivered is at most the pool size, and equals the
pool size when every pool peer's Ping succeeds and `from` is not a pool
key (when `from` is a pool key the skipped entry makes it one less). -/
theorem c6_delivered_bound (s : NodeState) (f : String) (ok : String → Bool) :
    broadcastImpl s f ok ≤ s.clients.length ∧
    ((∀ kc ∈ s.clients, ok kc.1 = true) → mapHas s.clients f = false →
      broadcastImpl s f ok = s.clients.length) := by
  constructor
  · rw [broadcastImpl_eq_countP]
    exact le_trans (List.countP_le_length _) (List.length_filter_le _ _)
  · intro hall hf
    rw [broadcastImpl_eq_countP]
    have hfil : s.clients.filter (fun kc => !decide (kc.1 = f)) = s.clients := by
      rw [List.filter_eq_self]
      intro kc hm
      have hne : kc.1 ≠ f := by
        intro he
        rw [Bool.eq_false_iff] at hf
        exact hf (he ▸ mapHas_of_mem hm)
      simp [hne]
    rw [hfil, List.countP_eq_length]
    intro kc hm
    simp [hall kc hm]

/-- Witness for C6 (amended) at a two-peer pool with all peers live. -/
theorem c6_witness :
    broadcastImpl pool6 "f" okAll ≤ pool6.clients.length ∧
    broadcastImpl pool6 "f" okAll = pool6.clients.length :=
  ⟨(c6_delivered_bound pool6 "f" okAll).1,
   (c6_delivered_bound pool6 "f" okAll).2 (by decide) (by decide)⟩

/-- C7 (confirmed): Broadcast never fails as a whole — the reply always
travels the success channel with a count, and that count is exactly the
number of non-`from` pool entries whose Ping succeeded (each failing
peer is merely excluded); in particular a two-peer pool with one live
and one unreachable peer (neither keyed `from`) delivers exactly 1. -/
theorem c7_broadcast_absorbs_failures :
    (∀ (s : NodeState) (f : String) (ok : String → Bool),
      broadcastRpc s f ok = Except.ok (broadcastImpl s f ok) ∧
      broadcastImpl s f ok
        = ((s.clients.filter (fun kc => !decide (kc.1 = f))).filter
            (fun kc => ok kc.1)).length) ∧
    (∀ (id addr : String) (prs : List (String × NodeInfo)) (p ap q aq f : String)
        (ok : String → Bool), p ≠ f → q ≠ f → ok p = true → ok q = false →
      broadcastImpl ⟨id, addr, prs, [(p, ap), (q, aq)]⟩ f ok = 1) := by
  constructor
  · intro s f ok
    refine ⟨rfl, ?_⟩
    rw [broadcastImpl_eq_countP, List.countP_eq_length_filter]
  · intro id addr prs p ap q aq f ok hp hq hokp hokq
    simp [broadcastImpl, hp, hq, hokp, hokq]

/-- Witness for C7 at a pool with live "p" and unreachable "q". -/
theorem c7_witness :
    broadcastRpc pool6 "f" okOnlyP = Except.ok (broadcastImpl pool6 "f" okOnlyP) ∧
    broadcastImpl pool6 "f" okOnlyP = 1 :=
  ⟨(c7_broadcast_absorbs_failures.1 pool6 "f" okOnlyP).1,
   c7_broadcast_absorbs_failures.2 "a" "ha" [] "p" "hp" "q" "hq" "f" okOnlyP
     (by decide) (by decide) (by decide) (by decide)⟩

/-- C8 (confirmed): Join is idempotent on the roster. Starting from any
reachable state, handling Join twice with callers sharing one id leaves
exactly one roster entry under that id, holding the entry supplied by
the most recent call. -/
theorem c8_join_idempotent (id addr : String) (ops : List Op) (b1 b2 : NodeInfo)
    (hid : b1.id = b2.id) :
    (joinImpl (joinImpl (run (initNode id addr) ops) b1).1 b2).1.peers.countP
        (fun kv => kv.1 = b1.id) = 1 ∧
    mapGet (joinImpl (joinImpl (run (initNode id addr) ops) b1).1 b2).1.peers b1.id
      = some b2 := by
  rw [hid]
  have hpe : (joinImpl (joinImpl (run (initNode id addr) ops) b1).1 b2).1.peers
      = mapSet (mapSet (run (initNode id addr) ops).peers b1.id b1) b2.id b2 := by
    show (learnPeer (learnPeer (run (initNode id addr) ops) b1) b2).peers = _
    rw [peers_learnPeer, peers_learnPeer]
  have hnd : ((mapSet (run (initNode id addr) ops).peers b1.id b1).map Prod.fst).Nodup :=
    keysNodup_mapSet _ _ (peersKeysNodup_run id addr ops)
  have hnd2 : ((mapSet (mapSet (run (initNode id addr) ops).peers b1.id b1)
      b2.id b2).map Prod.fst).Nodup :=
    keysNodup_mapSet _ _ hnd
  constructor
  · rw [hpe]
    exact countP_key_eq_one _ _ hnd2 (mapHas_mapSet_self _ _ _)
  · rw [hpe]
    exact mapGet_mapSet _ _ _

/-- Witness for C8: node A handles Join for B's id twice, the second
call carrying a new address; one entry remains, with the new address. -/
theorem c8_witness :
    infoB.id = infoB2.id ∧
    ((joinImpl (joinImpl (run (initNode "a" "ha") []) infoB).1 infoB2).1.peers.countP
        (fun kv => kv.1 = infoB.id) = 1 ∧
      mapGet (joinImpl (joinImpl (run (initNode "a" "ha") []) infoB).1 infoB2).1.peers
          infoB.id = some infoB2) :=
  ⟨rfl, c8_join_idempotent "a" "ha" [] infoB infoB2 rfl⟩

/-- C9 (counterexample): the fan-out is not parallel. On a two-peer pool
the trace interleaves each call with its completion — the second Ping is
only issued after the first completes — so the calls do not all precede
the completions as a parallel fan-out requires. -/
theorem c9_counterexample :
    broadcastTrace pool6 "f" okAll
      = [Event.call "p", Event.reply "p" true, Event.call "q", Event.reply "q" true] ∧
    callsPrecedeReplies (broadcastTrace pool6 "f" okAll) = false := by
  decide

/-- C9 (amended): Broadcast's fan-out is sequential: it iterates the
pool in order and awaits each eligible peer's Ping before contacting the
next, producing a call immediately followed by its own completion for
each non-`from` entry. -/
theorem c9_sequential_fanout (s : NodeState) (f : String) (ok : String → Bool) :
    broadcastTrace s f ok
      = (s.clients.filter (fun kc => !decide (kc.1 = f))).flatMap
          (fun kc => [Event.call kc.1, Event.reply kc.1 (ok kc.1)]) :=
  broadcastTrace_eq_bind s f ok

/-- C10 (confirmed): in every reachable state the client pool has no
entry keyed by the node's own id (`connectToPeer` returns early on the
node itself and is the only pool inserter), so Broadcast's fan-out never
issues a Ping to the node itself, whatever `from` is. -/
theorem c10_pool_never_contains_self (id addr : String) (ops : List Op)
    (f : String) (ok : String → Bool) :
    mapHas (run (initNode id addr) ops).clients id = false ∧
    Event.call id ∉ broadcastTrace (run (initNode id addr) ops) f ok := by
  refine ⟨noSelfClients_run id addr ops, ?_⟩
  intro hmem
  have h := (call_mem_broadcastTrace hmem).1
  have h2 := noSelfClients_run id addr ops
  rw [h2] at h
  exact Bool.false_ne_true h

end WealthWorkshop
